import Mathlib

/-!
Verification development for the `lcon` package: an in-process buffered
bidirectional `net.Conn` built from a bounded ring buffer (`buffer`), a
half-duplex `Pipe` with blocking reads/writes, one-shot deadlines and a
sticky close error, and a full-duplex `Bidir` pairing two pipes.

The `Pipe` and `Bidir` layers are translated from `src/bidir.go`
(the deadline-capable version of the pipe).  Go's `time.Time` is modelled
as a `Nat`, with `0` playing the role of the zero time (`IsZero`), and the
current wall clock is passed explicitly to `Read`/`Write` as `now`.

Blocking is modelled sequentially: an operation that would block forever
(no concurrent peer and no armed deadline timer) returns `none`; an
operation that completes — immediately, or after its deadline timer fires
and wakes it — returns `some` of the new state and the Go return values.
-/

set_option maxRecDepth 4000

namespace Lcon

/-- Go errors, compared by identity in the source; modelled as an inductive
with the two package-level sentinel errors, a caller-misuse marker for a
write that can never fit, and custom caller-supplied errors. -/
inductive Err where
  | deadlineExceeded
  | lconPipeClosed
  | writeTooBig
  | custom (n : Nat)
deriving DecidableEq

/-- A byte of the buffer / payload. -/
abbrev Byte := Nat

/-- Read the circular storage `l` at logical position `i` (wrapped modulo
the storage length). -/
def ringGet (l : List Byte) (i : Nat) : Byte := l.getD (i % l.length) 0

/-- Overwrite the circular storage `l` at logical position `i` (wrapped
modulo the storage length) with `v`. -/
def ringSet (l : List Byte) (i : Nat) (v : Byte) : List Byte :=
  l.set (i % l.length) v

/-- Copy the payload `p` into the circular storage `l` starting at logical
position `w`, wrapping as needed. -/
def ringWrite (l : List Byte) (w : Nat) : List Byte → List Byte
  | [] => l
  | x :: xs => ringWrite (ringSet l w x) (w + 1) xs

/-- Modelled from the spec: the Bounded Ring Buffer of §4.1 (`buffer` in
the Go source, referenced by `src/bidir.go` but itself absent from `src/`):
fixed-size backing storage, a count of currently-buffered unread bytes, a
read cursor position modulo the capacity, a closed flag, the transient
timed-out flag (`late`, stored on the buffer as in the source, set by a
fired deadline timer), and the sticky error value. -/
structure buffer where
  buf : List Byte
  r : Nat
  count : Nat
  closed : Bool
  late : Bool
  errv : Option Err
deriving DecidableEq

/-- Number of currently buffered unread bytes (`buffer.Len`). -/
def buffer.Len (b : buffer) : Nat := b.count

/-- Free space of the buffer (`buffer.freeBytes`). -/
def buffer.freeBytes (b : buffer) : Nat := b.buf.length - b.count

/-- Modelled from the spec: ring-buffer `read(dest)` — copies
`min(len(dest), count)` bytes starting at the read cursor into `dest`,
wrapping as needed; advances the read cursor and decreases the count by
the number copied.  If the buffer is closed and empty it returns 0 bytes
and the sticky error instead; if the timed-out flag is set and no data is
available, the result is a deadline-exceeded error with zero bytes.
Returns the new buffer, the bytes copied out, and the error. -/
def buffer.Read (b : buffer) (destLen : Nat) : buffer × List Byte × Option Err :=
  if b.closed = true ∧ b.count = 0 then (b, [], b.errv)
  else if b.late = true ∧ b.count = 0 then (b, [], some Err.deadlineExceeded)
  else
    let k := min destLen b.count
    let bytes := (List.range k).map (fun i => ringGet b.buf (b.r + i))
    ({ b with r := (b.r + k) % b.buf.length, count := b.count - k }, bytes, none)

/-- Modelled from the spec: ring-buffer `write(bytes)` — once closed, all
operations fail fast with the sticky error; otherwise, when the free space
is at least `len(bytes)`, copies all bytes into the circular storage at
the current write cursor (read cursor plus count), wrapping as needed,
advances the count, and returns `len(bytes)` with no error.  When the
payload does not fit and the timed-out flag is set, the result is a
deadline-exceeded error; a payload that does not fit otherwise is a
caller-misuse error (the pipe never issues such a write). -/
def buffer.Write (b : buffer) (p : List Byte) : buffer × Nat × Option Err :=
  if b.closed = true then (b, 0, b.errv)
  else if p.length ≤ b.freeBytes then
    ({ b with buf := ringWrite b.buf (b.r + b.count) p, count := b.count + p.length },
      p.length, none)
  else if b.late = true then (b, 0, some Err.deadlineExceeded)
  else (b, 0, some Err.writeTooBig)

/-- Modelled from the spec: ring-buffer `close(err)` — if not already
closed, sets `closed` and stores `err` as the sticky error; idempotent,
later calls are no-ops and the first error always wins. -/
def buffer.Close (b : buffer) (e : Err) : buffer :=
  if b.closed = true then b else { b with closed := true, errv := some e }

/-- The FIFO sequence of currently buffered unread bytes, starting at the
read cursor. -/
def buffer.contents (b : buffer) : List Byte :=
  (List.range b.count).map (fun i => ringGet b.buf (b.r + i))

/- ### Ring-storage lemmas -/

theorem ringWrite_length (p : List Byte) : ∀ l w, (ringWrite l w p).length = l.length := by
  induction p with
  | nil => intro l w; rfl
  | cons x xs ih =>
    intro l w
    simp [ringWrite, ih, ringSet]

theorem mod_cancel {a b c n : Nat} (hb : b < n) (hc : c < n)
    (h : (a + b) % n = (a + c) % n) : b = c := by
  have h2 : b ≡ c [MOD n] := Nat.ModEq.add_left_cancel' a h
  have h3 : b % n = c % n := h2
  rwa [Nat.mod_eq_of_lt hb, Nat.mod_eq_of_lt hc] at h3

theorem ringGet_ringSet_ne {l : List Byte} {w q : Nat} {v : Byte}
    (h : w % l.length ≠ q % l.length) : ringGet (ringSet l w v) q = ringGet l q := by
  unfold ringGet ringSet
  rw [List.length_set]
  rcases Nat.lt_or_ge (q % l.length) l.length with hlt | hge
  · rw [List.getD_eq_getElem?_getD, List.getD_eq_getElem?_getD,
      List.getElem?_eq_getElem (by simpa using hlt),
      List.getElem?_eq_getElem hlt]
    simp [List.getElem_set_ne h]
  · rw [List.getD_eq_getElem?_getD, List.getD_eq_getElem?_getD,
      List.getElem?_eq_none (by simpa using hge),
      List.getElem?_eq_none hge]

theorem ringGet_ringWrite_untouched (p : List Byte) :
    ∀ l w q, (∀ j, j < p.length → (w + j) % l.length ≠ q % l.length) →
      ringGet (ringWrite l w p) q = ringGet l q := by
  induction p with
  | nil => intro l w q _; rfl
  | cons x xs ih =>
    intro l w q h
    show ringGet (ringWrite (ringSet l w x) (w + 1) xs) q = ringGet l q
    rw [ih (ringSet l w x) (w + 1) q]
    · exact ringGet_ringSet_ne (by simpa using h 0 (by simp))
    · intro j hj
      have hlen : (ringSet l w x).length = l.length := by simp [ringSet]
      rw [hlen]
      have := h (1 + j) (by simp only [List.length_cons]; omega)
      simpa [Nat.add_assoc, Nat.add_comm 1 j] using this

theorem ringGet_ringSet_self {l : List Byte} {w : Nat} {v : Byte}
    (h : 0 < l.length) : ringGet (ringSet l w v) w = v := by
  unfold ringGet ringSet
  rw [List.length_set]
  have hlt : w % l.length < l.length := Nat.mod_lt _ h
  rw [List.getD_eq_getElem?_getD, List.getElem?_eq_getElem (by simpa using hlt)]
  simp

theorem ringGet_ringWrite_at (p : List Byte) :
    ∀ l w j, j < p.length → p.length ≤ l.length →
      ringGet (ringWrite l w p) (w + j) = p.getD j 0 := by
  induction p with
  | nil => intro l w j hj _; exact absurd hj (by simp)
  | cons x xs ih =>
    intro l w j hj hlen
    have hpos : 0 < l.length := lt_of_lt_of_le (by simp) hlen
    match j with
    | 0 =>
      show ringGet (ringWrite (ringSet l w x) (w + 1) xs) (w + 0) = x
      have huntouched : ∀ i, i < xs.length →
          (w + 1 + i) % (ringSet l w x).length ≠ (w + 0) % (ringSet l w x).length := by
        intro i hi
        have hset : (ringSet l w x).length = l.length := by simp [ringSet]
        rw [hset]
        intro heq
        have h1i : 1 + i < l.length := by
          simp only [List.length_cons] at hlen
          omega
        have hzero : (0 : Nat) < l.length := hpos
        have heq2 : (w + (1 + i)) % l.length = (w + 0) % l.length := by
          have harr : w + 1 + i = w + (1 + i) := by omega
          rw [harr] at heq
          exact heq
        have : 1 + i = 0 := mod_cancel h1i hzero heq2
        omega
      rw [ringGet_ringWrite_untouched xs (ringSet l w x) (w + 1) (w + 0) huntouched]
      simpa using ringGet_ringSet_self hpos
    | j + 1 =>
      show ringGet (ringWrite (ringSet l w x) (w + 1) xs) (w + (j + 1)) = xs.getD j 0
      have harr : w + (j + 1) = (w + 1) + j := by omega
      rw [harr]
      exact ih (ringSet l w x) (w + 1) j (by simpa using hj)
        (by simpa [ringSet] using Nat.le_of_succ_le hlen)

/- ### Buffer-level lemmas -/

theorem contents_length (b : buffer) : b.contents.length = b.count := by
  simp [buffer.contents]

theorem contents_getElem (b : buffer) (i : Nat) (h : i < b.contents.length) :
    b.contents[i] = ringGet b.buf (b.r + i) := by
  simp [buffer.contents]

/-- The buffer state after a successful write of `p`. -/
def buffer.afterWrite (b : buffer) (p : List Byte) : buffer :=
  { b with buf := ringWrite b.buf (b.r + b.count) p, count := b.count + p.length }

/-- The buffer state after a read that copied `k` bytes out. -/
def buffer.afterRead (b : buffer) (k : Nat) : buffer :=
  { b with r := (b.r + k) % b.buf.length, count := b.count - k }

/-- Effect of a fitting write on an open buffer: it succeeds completely and
appends the payload to the FIFO contents. -/
theorem buffer.Write_ok (b : buffer) (p : List Byte)
    (hcl : b.closed = false) (h : b.count + p.length ≤ b.buf.length) :
    b.Write p = (b.afterWrite p, p.length, none) ∧
    (b.afterWrite p).contents = b.contents ++ p := by
  constructor
  · unfold buffer.Write buffer.afterWrite
    rw [if_neg (by simp [hcl]), if_pos (by unfold buffer.freeBytes; omega)]
  · apply List.ext_getElem
    · simp [contents_length, buffer.afterWrite]
    · intro i h1 h2
      rw [contents_getElem _ i h1]
      show ringGet (ringWrite b.buf (b.r + b.count) p) (b.r + i) = (b.contents ++ p)[i]
      rw [contents_length] at h1
      simp only [buffer.afterWrite] at h1
      simp only [List.length_append, contents_length] at h2
      rcases Nat.lt_or_ge i b.count with hi | hi
      · have huntouched : ∀ j, j < p.length →
            (b.r + b.count + j) % b.buf.length ≠ (b.r + i) % b.buf.length := by
          intro j hj heq
          have hcj : b.count + j < b.buf.length := by omega
          have hii : i < b.buf.length := by omega
          have harr : b.r + b.count + j = b.r + (b.count + j) := by omega
          rw [harr] at heq
          have := mod_cancel hcj hii heq
          omega
        rw [ringGet_ringWrite_untouched p b.buf (b.r + b.count) (b.r + i) huntouched]
        rw [List.getElem_append_left (by rw [contents_length]; exact hi)]
        rw [contents_getElem b i (by rw [contents_length]; exact hi)]
      · have hj : i - b.count < p.length := by omega
        have harr : b.r + i = (b.r + b.count) + (i - b.count) := by omega
        rw [harr]
        rw [ringGet_ringWrite_at p b.buf (b.r + b.count) (i - b.count) hj (by omega)]
        rw [List.getElem_append_right (by rw [contents_length]; exact hi)]
        rw [List.getD_eq_getElem?_getD, List.getElem?_eq_getElem (by omega : i - b.count < p.length)]
        simp [contents_length]

/-- Effect of a read on a buffer that is not in an error branch: it returns
the first `min destLen count` buffered bytes and drops them from the FIFO
contents. -/
theorem buffer.Read_ok (b : buffer) (destLen : Nat)
    (h1 : ¬(b.closed = true ∧ b.count = 0)) (h2 : ¬(b.late = true ∧ b.count = 0)) :
    b.Read destLen = (b.afterRead (min destLen b.count), b.contents.take destLen, none) ∧
    (b.afterRead (min destLen b.count)).contents = b.contents.drop destLen := by
  constructor
  · unfold buffer.Read buffer.afterRead
    rw [if_neg h1, if_neg h2]
    have hbytes : (List.range (min destLen b.count)).map (fun i => ringGet b.buf (b.r + i)) =
        b.contents.take destLen := by
      unfold buffer.contents
      rw [← List.map_take, List.take_range]
    simp only [hbytes]
  · apply List.ext_getElem
    · simp [contents_length, buffer.afterRead]; omega
    · intro i hi1 hi2
      rw [contents_getElem _ i hi1]
      show ringGet b.buf ((b.r + min destLen b.count) % b.buf.length + i) =
        (b.contents.drop destLen)[i]
      rw [contents_length] at hi1
      simp only [buffer.afterRead] at hi1
      have hdi : destLen + i < b.count := by
        simp only [List.length_drop, contents_length] at hi2
        omega
      have hmin : min destLen b.count = destLen := by omega
      rw [hmin] at hi1 ⊢
      have hshift : ringGet b.buf ((b.r + destLen) % b.buf.length + i) =
          ringGet b.buf (b.r + (destLen + i)) := by
        unfold ringGet
        rw [Nat.mod_add_mod, Nat.add_assoc]
      rw [hshift]
      rw [List.getElem_drop]
      rw [contents_getElem b (destLen + i) (by rw [contents_length]; exact hdi)]

/- ### Half-duplex Pipe (translated from src/bidir.go) -/

/-- The half-duplex `Pipe` of `src/bidir.go`: one ring buffer plus the two
one-shot absolute deadlines (`time.Time`, modelled as `Nat` with `0` as the
zero time).  The condition variable, mutex and `Flushed` notification
channel carry no sequentially observable state and are not represented. -/
structure Pipe where
  b : buffer
  readDeadline : Nat
  writeDeadline : Nat
deriving DecidableEq

/-- Translation of `NewPipe` in `src/bidir.go`: wraps a caller-supplied pre-allocated
backing store into an open, empty pipe with no deadlines. -/
def NewPipe (buf : List Byte) : Pipe :=
  { b := { buf := buf, r := 0, count := 0, closed := false, late := false, errv := none },
    readDeadline := 0, writeDeadline := 0 }

/-- Translation of `Pipe.Read` in `src/bidir.go`, sequential semantics.  If the read
deadline is set and already elapsed, fail immediately with the deadline
error (the deadline is left in place: the early return precedes the
deferred reset).  Otherwise the wait loop `for Len() == 0 && !closed &&
!late` either does not block (data, closure or a pending timeout flag),
or blocks; a blocked read with an armed deadline is woken by the timer
setting `late`, and a blocked read with no deadline never returns in the
sequential model (`none`).  On every non-early return the deferred
function clears `late` and resets the read deadline to the zero time. -/
def Pipe.Read (s : Pipe) (now : Nat) (destLen : Nat) :
    Option (Pipe × List Byte × Option Err) :=
  if s.readDeadline ≠ 0 ∧ s.readDeadline ≤ now then
    some (s, [], some Err.deadlineExceeded)
  else if s.b.Len ≠ 0 ∨ s.b.closed = true ∨ s.b.late = true then
    let res := s.b.Read destLen
    some ({ s with b := { res.1 with late := false }, readDeadline := 0 }, res.2)
  else if s.readDeadline ≠ 0 then
    let res := ({ s.b with late := true } : buffer).Read destLen
    some ({ s with b := { res.1 with late := false }, readDeadline := 0 }, res.2)
  else
    none

/-- Translation of `Pipe.Write` in `src/bidir.go`, sequential semantics.  Symmetric to
`Pipe.Read`: an elapsed write deadline fails immediately (without the
deferred reset); otherwise the wait loop `for freeBytes() < len(p) &&
!closed && !late` either does not block, or blocks until the armed
deadline timer sets `late`; with no deadline a blocked write never
returns.  On every non-early return the deferred function clears `late`
and resets the write deadline to the zero time. -/
def Pipe.Write (s : Pipe) (now : Nat) (p : List Byte) :
    Option (Pipe × Nat × Option Err) :=
  if s.writeDeadline ≠ 0 ∧ s.writeDeadline ≤ now then
    some (s, 0, some Err.deadlineExceeded)
  else if p.length ≤ s.b.freeBytes ∨ s.b.closed = true ∨ s.b.late = true then
    let res := s.b.Write p
    some ({ s with b := { res.1 with late := false }, writeDeadline := 0 }, res.2)
  else if s.writeDeadline ≠ 0 then
    let res := ({ s.b with late := true } : buffer).Write p
    some ({ s with b := { res.1 with late := false }, writeDeadline := 0 }, res.2)
  else
    none

/-- Translation of `Pipe.SetErrorAndClose` in `src/bidir.go`: close the buffer with a
caller-supplied error (idempotent, first error wins) and wake waiters. -/
def Pipe.SetErrorAndClose (s : Pipe) (e : Err) : Pipe :=
  { s with b := s.b.Close e }

/-- Translation of `Pipe.Close` in `src/bidir.go`: close with the canonical pipe-closed
error; always returns a nil error. -/
def Pipe.Close (s : Pipe) : Pipe × Option Err :=
  (s.SetErrorAndClose Err.lconPipeClosed, none)

/-- Translation of `Pipe.SetReadDeadline` in `src/bidir.go`: store the absolute read
deadline; always returns a nil error. -/
def Pipe.SetReadDeadline (s : Pipe) (t : Nat) : Pipe × Option Err :=
  ({ s with readDeadline := t }, none)

/-- Translation of `Pipe.SetWriteDeadline` in `src/bidir.go`: store the absolute write
deadline; always returns a nil error. -/
def Pipe.SetWriteDeadline (s : Pipe) (t : Nat) : Pipe × Option Err :=
  ({ s with writeDeadline := t }, none)

/-- Translation of `Pipe.SetDeadline` in `src/bidir.go`: set both deadlines; report the
read-side error if any, otherwise the write-side error. -/
def Pipe.SetDeadline (s : Pipe) (t : Nat) : Pipe × Option Err :=
  let r1 := s.SetReadDeadline t
  let r2 := r1.1.SetWriteDeadline t
  (r2.1, if r1.2 ≠ none then r1.2 else r2.2)

/- ### Pipe-level lemmas -/

/-- The pipe state after a non-early-return read that copied `k` bytes:
`late` is cleared and the read deadline is reset. -/
def Pipe.afterRead (s : Pipe) (k : Nat) : Pipe :=
  { s with b := { s.b.afterRead k with late := false }, readDeadline := 0 }

/-- The pipe state after a successful write of `p`: `late` is cleared and
the write deadline is reset. -/
def Pipe.afterWrite (s : Pipe) (p : List Byte) : Pipe :=
  { s with b := { s.b.afterWrite p with late := false }, writeDeadline := 0 }

/-- A read with data available (and no elapsed deadline at entry) does not
block: it returns the first `min destLen count` buffered bytes with no
error, drops them from the pipe, clears `late` and resets the deadline. -/
theorem Pipe.Read_spec (s : Pipe) (now destLen : Nat)
    (hdl : s.readDeadline = 0 ∨ now < s.readDeadline)
    (hne : s.b.count ≠ 0) :
    s.Read now destLen =
      some (s.afterRead (min destLen s.b.count), s.b.contents.take destLen, none) ∧
    (s.afterRead (min destLen s.b.count)).b.contents = s.b.contents.drop destLen := by
  have hb := buffer.Read_ok s.b destLen (by simp [hne]) (by simp [hne])
  constructor
  · unfold Pipe.Read
    rw [if_neg (by omega), if_pos (Or.inl (by simpa [buffer.Len] using hne))]
    simp only [hb.1, Pipe.afterRead]
  · simpa [Pipe.afterRead, buffer.contents, buffer.afterRead] using hb.2

/-- A fitting write on an open pipe (with no elapsed deadline at entry)
does not block: it appends the whole payload, returns its length with no
error, clears `late` and resets the deadline. -/
theorem Pipe.Write_spec (s : Pipe) (now : Nat) (p : List Byte)
    (hdl : s.writeDeadline = 0 ∨ now < s.writeDeadline)
    (hcl : s.b.closed = false)
    (hfit : s.b.count + p.length ≤ s.b.buf.length) :
    s.Write now p = some (s.afterWrite p, p.length, none) ∧
    (s.afterWrite p).b.contents = s.b.contents ++ p := by
  have hb := buffer.Write_ok s.b p hcl hfit
  constructor
  · unfold Pipe.Write
    rw [if_neg (by omega), if_pos (Or.inl (by unfold buffer.freeBytes; omega))]
    simp only [hb.1, Pipe.afterWrite]
  · simpa [Pipe.afterWrite, buffer.contents, buffer.afterWrite] using hb.2

/- ### Full-duplex Bidir (translated from src/bidir.go) -/

/-- The full-duplex `Bidir` of `src/bidir.go`: a send pipe and a receive
pipe. -/
structure Bidir where
  Send : Pipe
  Recv : Pipe
deriving DecidableEq

/-- Translation of `NewBidir` in `src/bidir.go`: a single endpoint over two fresh
independent pipes of the given size. -/
def NewBidir (sz : Nat) : Bidir :=
  { Send := NewPipe (List.replicate sz 0), Recv := NewPipe (List.replicate sz 0) }

/-- Translation of `Bidir.Read` in `src/bidir.go`: delegates to the receive pipe. -/
def Bidir.Read (c : Bidir) (now destLen : Nat) :
    Option (Bidir × List Byte × Option Err) :=
  (c.Recv.Read now destLen).map (fun res => ({ c with Recv := res.1 }, res.2))

/-- Translation of `Bidir.Write` in `src/bidir.go`: delegates to the send pipe. -/
def Bidir.Write (c : Bidir) (now : Nat) (p : List Byte) :
    Option (Bidir × Nat × Option Err) :=
  (c.Send.Write now p).map (fun res => ({ c with Send := res.1 }, res.2))

/-- Translation of `Bidir.Close` in `src/bidir.go`: closes the send pipe only. -/
def Bidir.Close (c : Bidir) : Bidir × Option Err :=
  let res := c.Send.Close
  ({ c with Send := res.1 }, res.2)

/-- Translation of `Bidir.SetErrorAndClose` in `src/bidir.go`: closes both the receive
and the send pipe with the caller-supplied error. -/
def Bidir.SetErrorAndClose (c : Bidir) (e : Err) : Bidir :=
  { c with Recv := c.Recv.SetErrorAndClose e, Send := c.Send.SetErrorAndClose e }

/-- Translation of `Bidir.SetWriteDeadline` in `src/bidir.go`: delegates to the send
pipe. -/
def Bidir.SetWriteDeadline (c : Bidir) (t : Nat) : Bidir × Option Err :=
  let res := c.Send.SetWriteDeadline t
  ({ c with Send := res.1 }, res.2)

/-- Translation of `Bidir.SetReadDeadline` in `src/bidir.go`: delegates to the receive
pipe. -/
def Bidir.SetReadDeadline (c : Bidir) (t : Nat) : Bidir × Option Err :=
  let res := c.Recv.SetReadDeadline t
  ({ c with Recv := res.1 }, res.2)

/-- Translation of `Bidir.SetDeadline` in `src/bidir.go`: sets both deadlines; reports
the read-side error if any, otherwise the write-side error. -/
def Bidir.SetDeadline (c : Bidir) (t : Nat) : Bidir × Option Err :=
  let r1 := c.SetReadDeadline t
  let r2 := r1.1.SetWriteDeadline t
  (r2.1, if r1.2 ≠ none then r1.2 else r2.2)

/-- Modelled from the spec: two Full-Duplex Connections constructed as a
cross-linked pair reference each other's pipes — endpoint 1's send pipe
equals endpoint 2's receive pipe, and vice versa (§3).  The pair-returning
constructor is absent from `src/` (the `NewBidir` there builds a single
un-linked endpoint, while `bidir_test.go` consumes a pair).  The two
shared pipes are the state; each endpoint's operations are the `Bidir`
operations of `src/bidir.go` acting on the shared pipe it holds: `ab` is
endpoint A's send pipe and endpoint B's receive pipe, `ba` the reverse. -/
structure BidirPair where
  ab : Pipe
  ba : Pipe
deriving DecidableEq

/-- Modelled from the spec: construct the cross-linked pair over two fresh
pipes of size `sz` (one per direction). -/
def NewBidirPair (sz : Nat) : BidirPair :=
  { ab := NewPipe (List.replicate sz 0), ba := NewPipe (List.replicate sz 0) }

/-- Endpoint A's `Write`: `Bidir.Write` delegating to A's send pipe `ab`. -/
def BidirPair.WriteA (w : BidirPair) (now : Nat) (p : List Byte) :
    Option (BidirPair × Nat × Option Err) :=
  (w.ab.Write now p).map (fun res => ({ w with ab := res.1 }, res.2))

/-- Endpoint B's `Read`: `Bidir.Read` delegating to B's receive pipe,
which is the shared pipe `ab`. -/
def BidirPair.ReadB (w : BidirPair) (now destLen : Nat) :
    Option (BidirPair × List Byte × Option Err) :=
  (w.ab.Read now destLen).map (fun res => ({ w with ab := res.1 }, res.2))

/-- Endpoint B's `Write`: delegates to B's send pipe, the shared `ba`. -/
def BidirPair.WriteB (w : BidirPair) (now : Nat) (p : List Byte) :
    Option (BidirPair × Nat × Option Err) :=
  (w.ba.Write now p).map (fun res => ({ w with ba := res.1 }, res.2))

/-- Endpoint A's `Read`: delegates to A's receive pipe, the shared `ba`. -/
def BidirPair.ReadA (w : BidirPair) (now destLen : Nat) :
    Option (BidirPair × List Byte × Option Err) :=
  (w.ba.Read now destLen).map (fun res => ({ w with ba := res.1 }, res.2))

/-- Endpoint A's `Bidir.Close`: closes A's send pipe `ab` only. -/
def BidirPair.CloseA (w : BidirPair) : BidirPair × Option Err :=
  let res := w.ab.Close
  ({ w with ab := res.1 }, res.2)

/-- Endpoint A's `Bidir.SetErrorAndClose`: closes both of A's pipes with
the caller-supplied error. -/
def BidirPair.SetErrorAndCloseA (w : BidirPair) (e : Err) : BidirPair :=
  { w with ba := w.ba.SetErrorAndClose e, ab := w.ab.SetErrorAndClose e }

/- ### Projection lemmas for the post-states -/

@[simp] theorem Pipe.afterWrite_b_count (s : Pipe) (p : List Byte) :
    (s.afterWrite p).b.count = s.b.count + p.length := rfl

@[simp] theorem Pipe.afterWrite_b_closed (s : Pipe) (p : List Byte) :
    (s.afterWrite p).b.closed = s.b.closed := rfl

@[simp] theorem Pipe.afterWrite_b_late (s : Pipe) (p : List Byte) :
    (s.afterWrite p).b.late = false := rfl

@[simp] theorem Pipe.afterWrite_readDeadline (s : Pipe) (p : List Byte) :
    (s.afterWrite p).readDeadline = s.readDeadline := rfl

@[simp] theorem Pipe.afterWrite_writeDeadline (s : Pipe) (p : List Byte) :
    (s.afterWrite p).writeDeadline = 0 := rfl

@[simp] theorem Pipe.afterWrite_b_buf_length (s : Pipe) (p : List Byte) :
    (s.afterWrite p).b.buf.length = s.b.buf.length := by
  show (ringWrite s.b.buf (s.b.r + s.b.count) p).length = s.b.buf.length
  exact ringWrite_length p s.b.buf (s.b.r + s.b.count)

@[simp] theorem Pipe.afterRead_b_count (s : Pipe) (k : Nat) :
    (s.afterRead k).b.count = s.b.count - k := rfl

@[simp] theorem Pipe.afterRead_b_closed (s : Pipe) (k : Nat) :
    (s.afterRead k).b.closed = s.b.closed := rfl

@[simp] theorem Pipe.afterRead_b_late (s : Pipe) (k : Nat) :
    (s.afterRead k).b.late = false := rfl

@[simp] theorem Pipe.afterRead_readDeadline (s : Pipe) (k : Nat) :
    (s.afterRead k).readDeadline = 0 := rfl

@[simp] theorem Pipe.afterRead_writeDeadline (s : Pipe) (k : Nat) :
    (s.afterRead k).writeDeadline = s.writeDeadline := rfl

@[simp] theorem Pipe.afterRead_b_buf_length (s : Pipe) (k : Nat) :
    (s.afterRead k).b.buf.length = s.b.buf.length := rfl

@[simp] theorem NewPipe_b_contents (buf : List Byte) :
    (NewPipe buf).b.contents = [] := by
  simp [NewPipe, buffer.contents]

/-- Reading exactly the length of the leading payload `X` of the buffered
contents returns `X` and leaves `rest` buffered. -/
theorem Pipe.Read_exact (s : Pipe) (now : Nat) (X rest : List Byte)
    (hdl : s.readDeadline = 0 ∨ now < s.readDeadline)
    (hcont : s.b.contents = X ++ rest)
    (hne : X ≠ [] ∨ rest ≠ []) :
    s.Read now X.length = some (s.afterRead X.length, X, none) ∧
    (s.afterRead X.length).b.contents = rest := by
  have hcount : s.b.count = X.length + rest.length := by
    rw [← contents_length s.b, hcont, List.length_append]
  have hne2 : s.b.count ≠ 0 := by
    rcases hne with h | h
    · have := List.length_pos.mpr h
      omega
    · have := List.length_pos.mpr h
      omega
  have hmin : min X.length s.b.count = X.length := by omega
  have h := Pipe.Read_spec s now X.length hdl hne2
  rw [hmin] at h
  constructor
  · rw [h.1, hcont, List.take_left]
  · rw [h.2, hcont, List.drop_left]

/- ### Claim theorems -/

/-- C9: every `Pipe` and `Bidir` operation other than `Read` and `Write`
that returns an error value — `Close`, `SetDeadline`, `SetReadDeadline`
and `SetWriteDeadline` — returns a nil error unconditionally, even on an
already-closed pipe; closure errors surface only through later reads or
writes. -/
theorem c9_nil_errors (s : Pipe) (c : Bidir) (t : Nat) :
    s.Close.2 = none ∧ (s.SetDeadline t).2 = none ∧
    (s.SetReadDeadline t).2 = none ∧ (s.SetWriteDeadline t).2 = none ∧
    c.Close.2 = none ∧ (c.SetDeadline t).2 = none ∧
    (c.SetReadDeadline t).2 = none ∧ (c.SetWriteDeadline t).2 = none := by
  refine ⟨rfl, ?_, rfl, rfl, rfl, ?_, rfl, rfl⟩
  · simp [Pipe.SetDeadline, Pipe.SetReadDeadline, Pipe.SetWriteDeadline]
  · simp [Bidir.SetDeadline, Bidir.SetReadDeadline, Bidir.SetWriteDeadline,
      Pipe.SetReadDeadline, Pipe.SetWriteDeadline]

/-- C10: every `Pipe.Read` (resp. `Write`) whose deadline had not already
elapsed at entry resets the read (resp. write) deadline to the zero time
and clears the timed-out flag before returning, even when data (resp.
space) was immediately available and the call never blocked — a pending
future deadline is silently consumed by a non-blocking operation. -/
theorem c10_deadline_consumed :
    (∀ (s : Pipe) (now d : Nat) (res : Pipe × List Byte × Option Err),
        (s.readDeadline = 0 ∨ now < s.readDeadline) →
        s.Read now d = some res →
        res.1.readDeadline = 0 ∧ res.1.b.late = false) ∧
    (∀ (s : Pipe) (now : Nat) (p : List Byte) (res : Pipe × Nat × Option Err),
        (s.writeDeadline = 0 ∨ now < s.writeDeadline) →
        s.Write now p = some res →
        res.1.writeDeadline = 0 ∧ res.1.b.late = false) := by
  constructor
  · intro s now d res hdl h
    unfold Pipe.Read at h
    rw [if_neg (by omega)] at h
    split at h
    · cases h; exact ⟨rfl, rfl⟩
    · split at h
      · cases h; exact ⟨rfl, rfl⟩
      · cases h
  · intro s now p res hdl h
    unfold Pipe.Write at h
    rw [if_neg (by omega)] at h
    split at h
    · cases h; exact ⟨rfl, rfl⟩
    · split at h
      · cases h; exact ⟨rfl, rfl⟩
      · cases h

/-- Witness for C10 at a concrete pipe: a non-blocking read of the single
buffered byte and a non-blocking write both leave deadline and timed-out
flag cleared. -/
theorem c10_witness :
    ((Pipe.mk (buffer.mk [42] 0 1 false false none) 0 0).Read 0 1 =
        some (Pipe.mk (buffer.mk [42] 0 0 false false none) 0 0, [42], none)) ∧
    ((Pipe.mk (buffer.mk [42] 0 0 false false none) 0 0).readDeadline = 0 ∧
      (Pipe.mk (buffer.mk [42] 0 0 false false none) 0 0).b.late = false) ∧
    ((Pipe.mk (buffer.mk [0] 0 0 false false none) 0 0).Write 0 [7] =
        some (Pipe.mk (buffer.mk [7] 0 1 false false none) 0 0, 1, none)) ∧
    ((Pipe.mk (buffer.mk [7] 0 1 false false none) 0 0).writeDeadline = 0 ∧
      (Pipe.mk (buffer.mk [7] 0 1 false false none) 0 0).b.late = false) :=
  ⟨by decide,
    c10_deadline_consumed.1 (Pipe.mk (buffer.mk [42] 0 1 false false none) 0 0) 0 1
      (Pipe.mk (buffer.mk [42] 0 0 false false none) 0 0, [42], none)
      (Or.inl rfl) (by decide),
    by decide,
    c10_deadline_consumed.2 (Pipe.mk (buffer.mk [0] 0 0 false false none) 0 0) 0 [7]
      (Pipe.mk (buffer.mk [7] 0 1 false false none) 0 0, 1, none)
      (Or.inl rfl) (by decide)⟩

/-- C6: if a read's (resp. write's) deadline elapses before its blocking
condition is satisfied — including a deadline already elapsed at call
time — the operation fails with the deadline-exceeded error and zero
bytes are transferred on that call. -/
theorem c6_deadline_exceeded :
    (∀ (s : Pipe) (now d : Nat),
        s.readDeadline ≠ 0 →
        (s.readDeadline ≤ now ∨
          (s.b.count = 0 ∧ s.b.closed = false ∧ s.b.late = false)) →
        ∃ s2, s.Read now d = some (s2, [], some Err.deadlineExceeded)) ∧
    (∀ (s : Pipe) (now : Nat) (p : List Byte),
        s.writeDeadline ≠ 0 →
        (s.writeDeadline ≤ now ∨
          (s.b.freeBytes < p.length ∧ s.b.closed = false ∧ s.b.late = false)) →
        ∃ s2, s.Write now p = some (s2, 0, some Err.deadlineExceeded)) := by
  constructor
  · intro s now d hdl hcase
    unfold Pipe.Read
    rcases Nat.decLe s.readDeadline now with hgt | hle
    · rcases hcase with hle2 | ⟨hcnt, hcl, hlate⟩
      · exact absurd hle2 hgt
      · have hbr : ({ s.b with late := true } : buffer).Read d =
            ({ s.b with late := true }, [], some Err.deadlineExceeded) := by
          unfold buffer.Read
          rw [if_neg (by simp [hcl]), if_pos (by simp [hcnt])]
        rw [if_neg (by omega),
          if_neg (by simp [buffer.Len, hcnt, hcl, hlate]),
          if_pos hdl]
        exact ⟨_, by rw [hbr]⟩
    · rw [if_pos ⟨hdl, hle⟩]
      exact ⟨s, rfl⟩
  · intro s now p hdl hcase
    unfold Pipe.Write
    rcases Nat.decLe s.writeDeadline now with hgt | hle
    · rcases hcase with hle2 | ⟨hfree, hcl, hlate⟩
      · exact absurd hle2 hgt
      · have hbw : ({ s.b with late := true } : buffer).Write p =
            ({ s.b with late := true }, 0, some Err.deadlineExceeded) := by
          unfold buffer.Write
          rw [if_neg (by simp [hcl]),
            if_neg (by simp [buffer.freeBytes] at hfree ⊢; omega),
            if_pos (by simp)]
        rw [if_neg (by omega),
          if_neg (by simp [hcl, hlate]; omega),
          if_pos hdl]
        exact ⟨_, by rw [hbw]⟩
    · rw [if_pos ⟨hdl, hle⟩]
      exact ⟨s, rfl⟩

/-- Witness for C6 at concrete pipes: an already-elapsed read deadline and
an armed write deadline on a write that can never fit both yield the
deadline-exceeded error with zero bytes. -/
theorem c6_witness :
    ((5 : Nat) ≠ 0) ∧
    (∃ s2, (Pipe.mk (buffer.mk [] 0 0 false false none) 5 0).Read 10 3 =
      some (s2, [], some Err.deadlineExceeded)) ∧
    (∃ s2, (Pipe.mk (buffer.mk [] 0 0 false false none) 0 7).Write 2 [1] =
      some (s2, 0, some Err.deadlineExceeded)) :=
  ⟨by decide,
    c6_deadline_exceeded.1 (Pipe.mk (buffer.mk [] 0 0 false false none) 5 0) 10 3
      (by decide) (Or.inl (by decide)),
    c6_deadline_exceeded.2 (Pipe.mk (buffer.mk [] 0 0 false false none) 0 7) 2 [1]
      (by decide) (Or.inr (by decide))⟩

/-- C7: on an open pipe holding `count > 0` buffered bytes, a read with a
destination longer than `count` returns exactly the `count` currently
available bytes and no error, rather than blocking or failing. -/
theorem c7_short_read (s : Pipe) (now d : Nat)
    (_hcl : s.b.closed = false) (hcnt : 0 < s.b.count) (hd : s.b.count < d)
    (hdl : s.readDeadline = 0 ∨ now < s.readDeadline) :
    ∃ s2, s.Read now d = some (s2, s.b.contents, none) ∧
      s.b.contents.length = s.b.count ∧ s2.b.count = 0 := by
  have h := (Pipe.Read_spec s now d hdl (by omega)).1
  have htake : s.b.contents.take d = s.b.contents :=
    List.take_of_length_le (by rw [contents_length]; omega)
  rw [htake] at h
  refine ⟨_, h, contents_length s.b, ?_⟩
  simp
  omega

/-- Witness for C7: a read of 2 bytes from an open pipe buffering a single
byte returns just that byte and no error. -/
theorem c7_witness :
    ((Pipe.mk (buffer.mk [42] 0 1 false false none) 0 0).b.closed = false) ∧
    (∃ s2, (Pipe.mk (buffer.mk [42] 0 1 false false none) 0 0).Read 0 2 =
      some (s2, (Pipe.mk (buffer.mk [42] 0 1 false false none) 0 0).b.contents, none) ∧
      (Pipe.mk (buffer.mk [42] 0 1 false false none) 0 0).b.contents.length =
        (Pipe.mk (buffer.mk [42] 0 1 false false none) 0 0).b.count ∧
      s2.b.count = 0) :=
  ⟨by decide,
    c7_short_read (Pipe.mk (buffer.mk [42] 0 1 false false none) 0 0) 0 2
      (by decide) (by decide) (by decide) (Or.inl (by decide))⟩

/-- Every write in the sequence completes without blocking, transfers the
whole payload and reports no error. -/
def writesOK (s : Pipe) (now : Nat) : List (List Byte) → Prop
  | [] => True
  | p :: ps => ∃ s2, s.Write now p = some (s2, p.length, none) ∧ writesOK s2 now ps

theorem writesOK_of_fits (ps : List (List Byte)) :
    ∀ (s : Pipe) (now : Nat), s.b.closed = false → s.writeDeadline = 0 →
      s.b.count + (ps.map List.length).sum ≤ s.b.buf.length →
      writesOK s now ps := by
  induction ps with
  | nil => intro s now _ _ _; trivial
  | cons p ps ih =>
    intro s now hcl hdl hsum
    simp only [List.map_cons, List.sum_cons] at hsum
    have hfit : s.b.count + p.length ≤ s.b.buf.length := by omega
    have hw := (Pipe.Write_spec s now p (Or.inl hdl) hcl hfit).1
    refine ⟨s.afterWrite p, hw, ih (s.afterWrite p) now ?_ ?_ ?_⟩
    · simp [hcl]
    · simp
    · simp
      omega

/-- C2: `Pipe.Write` is all-or-nothing.  Starting from a fresh pipe, any
sequence of writes whose cumulative unread bytes stay at or below the
capacity transfers every payload completely, with no error and without
blocking; and no write — from any state — ever returns a byte count
strictly between 0 and the payload length. -/
theorem c2_write_all_or_nothing :
    (∀ (buf : List Byte) (now : Nat) (ps : List (List Byte)),
        (ps.map List.length).sum ≤ buf.length →
        writesOK (NewPipe buf) now ps) ∧
    (∀ (s : Pipe) (now : Nat) (p : List Byte) (res : Pipe × Nat × Option Err),
        s.Write now p = some res → res.2.1 = 0 ∨ res.2.1 = p.length) := by
  constructor
  · intro buf now ps hsum
    exact writesOK_of_fits ps (NewPipe buf) now rfl rfl (by simpa [NewPipe] using hsum)
  · have hn : ∀ (b : buffer) (p : List Byte), (b.Write p).2.1 = 0 ∨ (b.Write p).2.1 = p.length := by
      intro b p
      unfold buffer.Write
      split
      · exact Or.inl rfl
      · split
        · exact Or.inr rfl
        · split
          · exact Or.inl rfl
          · exact Or.inl rfl
    intro s now p res h
    unfold Pipe.Write at h
    split at h
    · cases h; exact Or.inl rfl
    · split at h
      · cases h; exact hn s.b p
      · split at h
        · cases h; exact hn { s.b with late := true } p
        · cases h

/-- Witness for C2: two writes totalling 3 bytes into a fresh capacity-10
pipe all succeed in full. -/
theorem c2_witness :
    ((([[1, 2], [3]] : List (List Byte)).map List.length).sum ≤
      (List.replicate 10 0 : List Byte).length) ∧
    writesOK (NewPipe (List.replicate 10 0)) 0 [[1, 2], [3]] :=
  ⟨by decide,
    c2_write_all_or_nothing.1 (List.replicate 10 0) 0 [[1, 2], [3]] (by decide)⟩

/-- C4: close is idempotent with a sticky, first-wins error.  After
`SetErrorAndClose eA` then `SetErrorAndClose eB` (with `eA ≠ eB`), a read
on the empty pipe returns 0 bytes and exactly `eA`, never `eB`; the second
and every later close call is a no-op preserving the original error. -/
theorem c4_sticky_close (buf : List Byte) (eA eB : Err) (_hne : eA ≠ eB) :
    ((NewPipe buf).SetErrorAndClose eA).SetErrorAndClose eB =
      (NewPipe buf).SetErrorAndClose eA ∧
    (∀ e2, ((NewPipe buf).SetErrorAndClose eA).SetErrorAndClose e2 =
      (NewPipe buf).SetErrorAndClose eA) ∧
    (∀ now d, ((NewPipe buf).SetErrorAndClose eA).Read now d =
      some ((NewPipe buf).SetErrorAndClose eA, [], some eA)) := by
  have hnoop : ∀ e2, ((NewPipe buf).SetErrorAndClose eA).SetErrorAndClose e2 =
      (NewPipe buf).SetErrorAndClose eA := by
    intro e2
    simp [NewPipe, Pipe.SetErrorAndClose, buffer.Close]
  refine ⟨hnoop eB, hnoop, ?_⟩
  intro now d
  unfold Pipe.Read
  rw [if_neg (by simp [NewPipe, Pipe.SetErrorAndClose, buffer.Close])]
  rw [if_pos (Or.inr (Or.inl (by simp [NewPipe, Pipe.SetErrorAndClose, buffer.Close])))]
  unfold buffer.Read
  rw [if_pos (by simp [NewPipe, Pipe.SetErrorAndClose, buffer.Close])]
  simp [NewPipe, Pipe.SetErrorAndClose, buffer.Close]

/-- Witness for C4 at two distinct custom errors on an empty pipe. -/
theorem c4_witness :
    (Err.custom 0 ≠ Err.custom 1) ∧
    ((((NewPipe []).SetErrorAndClose (Err.custom 0)).SetErrorAndClose (Err.custom 1) =
        (NewPipe []).SetErrorAndClose (Err.custom 0)) ∧
      (∀ e2, ((NewPipe []).SetErrorAndClose (Err.custom 0)).SetErrorAndClose e2 =
        (NewPipe []).SetErrorAndClose (Err.custom 0)) ∧
      (∀ now d, ((NewPipe []).SetErrorAndClose (Err.custom 0)).Read now d =
        some ((NewPipe []).SetErrorAndClose (Err.custom 0), [], some (Err.custom 0)))) :=
  ⟨by decide, c4_sticky_close [] (Err.custom 0) (Err.custom 1) (by decide)⟩

/-- C5: deadlines are one-shot.  A read deadline armed in the future fires
during the blocked read, which fails with the deadline error and resets
the deadline to the zero time; a subsequent normal write followed by a
normal read (no new deadline set) then succeeds without error. -/
theorem c5_one_shot_deadline (buf msg : List Byte) (t now1 now2 now3 d : Nat)
    (ht : now1 < t) (hmsg : 0 < msg.length) (hfit : msg.length ≤ buf.length) :
    ∃ s1 s2 s3,
      (((NewPipe buf).SetReadDeadline t).1).Read now1 d =
        some (s1, [], some Err.deadlineExceeded) ∧
      s1 = NewPipe buf ∧
      s1.Write now2 msg = some (s2, msg.length, none) ∧
      s2.Read now3 msg.length = some (s3, msg, none) := by
  have h1 : (((NewPipe buf).SetReadDeadline t).1).Read now1 d =
      some (NewPipe buf, [], some Err.deadlineExceeded) := by
    unfold Pipe.Read
    rw [if_neg (by simp [Pipe.SetReadDeadline]; omega)]
    rw [if_neg (by simp [Pipe.SetReadDeadline, NewPipe, buffer.Len])]
    rw [if_pos (by simp [Pipe.SetReadDeadline]; omega)]
    unfold buffer.Read
    rw [if_neg (by simp [Pipe.SetReadDeadline, NewPipe]),
      if_pos (by simp [Pipe.SetReadDeadline, NewPipe])]
    simp [Pipe.SetReadDeadline, NewPipe]
  have h2 := Pipe.Write_spec (NewPipe buf) now2 msg (Or.inl rfl) rfl
    (by simp [NewPipe]; omega)
  have hcont : ((NewPipe buf).afterWrite msg).b.contents = msg := by
    rw [h2.2, NewPipe_b_contents]
    rfl
  have h3 := Pipe.Read_exact ((NewPipe buf).afterWrite msg) now3 msg []
    (Or.inl rfl) (by rw [hcont, List.append_nil]) (Or.inl (List.length_pos.mp hmsg))
  exact ⟨NewPipe buf, (NewPipe buf).afterWrite msg,
    ((NewPipe buf).afterWrite msg).afterRead msg.length, h1, rfl, h2.1, h3.1⟩

/-- Witness for C5: a capacity-10 pipe, read deadline 5, the blocked read
at time 1 times out, then writing and reading the byte 9 succeeds. -/
theorem c5_witness :
    ((1 : Nat) < 5) ∧
    (∃ s1 s2 s3,
      (((NewPipe (List.replicate 10 0)).SetReadDeadline 5).1).Read 1 4 =
        some (s1, [], some Err.deadlineExceeded) ∧
      s1 = NewPipe (List.replicate 10 0) ∧
      s1.Write 6 [9] = some (s2, ([9] : List Byte).length, none) ∧
      s2.Read 7 ([9] : List Byte).length = some (s3, [9], none)) :=
  ⟨by decide,
    c5_one_shot_deadline (List.replicate 10 0) [9] 5 1 6 7 4
      (by decide) (by decide) (by decide)⟩

/-- C3: FIFO delivery.  Two consecutive writes of payloads `A` then `B`
on a fresh pipe leave the buffered contents exactly `A ++ B` (each
payload's bytes contiguous and unmodified, `A` entirely before `B`), and
a subsequent pair of reads of `|A|` and then `|B|` bytes observes exactly
`A` and then `B`, each with no error. -/
theorem c3_fifo (sz : Nat) (A B : List Byte) (now : Nat)
    (hfits : A.length + B.length ≤ sz) :
    ∃ w1 w2,
      (NewPipe (List.replicate sz 0)).Write now A = some (w1, A.length, none) ∧
      w1.Write now B = some (w2, B.length, none) ∧
      w2.b.contents = A ++ B ∧
      (0 < B.length →
        ∃ r1 r2,
          w2.Read now A.length = some (r1, A, none) ∧
          r1.Read now B.length = some (r2, B, none)) := by
  have h1 := Pipe.Write_spec (NewPipe (List.replicate sz 0)) now A (Or.inl rfl) rfl
    (by simp [NewPipe]; omega)
  have hc1 : ((NewPipe (List.replicate sz 0)).afterWrite A).b.contents = A := by
    rw [h1.2, NewPipe_b_contents]
    rfl
  have h2 := Pipe.Write_spec ((NewPipe (List.replicate sz 0)).afterWrite A) now B
    (Or.inl (by simp)) (by simp [NewPipe]) (by simp [NewPipe]; omega)
  have hc2 : (((NewPipe (List.replicate sz 0)).afterWrite A).afterWrite B).b.contents =
      A ++ B := by
    rw [h2.2, hc1]
  refine ⟨_, _, h1.1, h2.1, hc2, ?_⟩
  intro hB
  have hBne : B ≠ [] := List.length_pos.mp hB
  have h3 := Pipe.Read_exact (((NewPipe (List.replicate sz 0)).afterWrite A).afterWrite B)
    now A B (Or.inl rfl) hc2 (Or.inr hBne)
  have h4 := Pipe.Read_exact
    ((((NewPipe (List.replicate sz 0)).afterWrite A).afterWrite B).afterRead A.length)
    now B [] (Or.inl rfl) (by rw [h3.2, List.append_nil]) (Or.inl hBne)
  exact ⟨(((NewPipe (List.replicate sz 0)).afterWrite A).afterWrite B).afterRead A.length,
    ((((NewPipe (List.replicate sz 0)).afterWrite A).afterWrite B).afterRead A.length).afterRead
      B.length,
    h3.1, h4.1⟩

/-- Witness for C3: writes of `[1, 2]` then `[3]` into a fresh capacity-30
pipe are read back as `[1, 2]` then `[3]`. -/
theorem c3_witness :
    (([1, 2] : List Byte).length + ([3] : List Byte).length ≤ 30) ∧
    (∃ w1 w2,
      (NewPipe (List.replicate 30 0)).Write 0 [1, 2] =
        some (w1, ([1, 2] : List Byte).length, none) ∧
      w1.Write 0 [3] = some (w2, ([3] : List Byte).length, none) ∧
      w2.b.contents = [1, 2] ++ [3] ∧
      (0 < ([3] : List Byte).length →
        ∃ r1 r2,
          w2.Read 0 ([1, 2] : List Byte).length = some (r1, [1, 2], none) ∧
          r1.Read 0 ([3] : List Byte).length = some (r2, [3], none))) :=
  ⟨by decide, c3_fifo 30 [1, 2] [3] 0 (by decide)⟩

/-- A read on a closed, drained pipe does not block and surfaces the
sticky error with zero bytes. -/
theorem Pipe.Read_closed_empty (s : Pipe) (now d : Nat)
    (hcl : s.b.closed = true) (hcnt : s.b.count = 0)
    (hdl : s.readDeadline = 0 ∨ now < s.readDeadline) :
    ∃ s2, s.Read now d = some (s2, [], s.b.errv) := by
  have hbr : s.b.Read d = (s.b, [], s.b.errv) := by
    unfold buffer.Read
    rw [if_pos ⟨hcl, hcnt⟩]
  unfold Pipe.Read
  rw [if_neg (by omega), if_pos (Or.inr (Or.inl hcl)), hbr]
  exact ⟨_, rfl⟩

/-- The 11-byte payload `"hello-world"`. -/
def hw : List Byte := [104, 101, 108, 108, 111, 45, 119, 111, 114, 108, 100]

/-- C1: on two full-duplex endpoints constructed as a cross-linked pair
(endpoint A's send pipe is the same pipe as endpoint B's receive pipe,
and vice versa), a `Write` of the 11-byte payload `"hello-world"` on
endpoint A followed by a `Read` on endpoint B returns exactly those bytes
with byte count 11 and no error. -/
theorem c1_full_duplex_pairing :
    ∃ w1 w2,
      (NewBidirPair 100).WriteA 0 hw = some (w1, 11, none) ∧
      w1.ReadB 0 11 = some (w2, hw, none) := by
  have h1 := Pipe.Write_spec (NewPipe (List.replicate 100 0)) 0 hw (Or.inl rfl) rfl
    (by decide)
  have hcont : ((NewPipe (List.replicate 100 0)).afterWrite hw).b.contents = hw := by
    rw [h1.2, NewPipe_b_contents]
    rfl
  have h2 := Pipe.Read_exact ((NewPipe (List.replicate 100 0)).afterWrite hw) 0 hw []
    (Or.inl rfl) (by rw [hcont, List.append_nil]) (Or.inl (by decide))
  have h2b := h2.1
  rw [show hw.length = 11 from rfl] at h2b
  refine ⟨BidirPair.mk ((NewPipe (List.replicate 100 0)).afterWrite hw)
      (NewPipe (List.replicate 100 0)),
    BidirPair.mk (((NewPipe (List.replicate 100 0)).afterWrite hw).afterRead 11)
      (NewPipe (List.replicate 100 0)), ?_, ?_⟩
  · show ((NewPipe (List.replicate 100 0)).Write 0 hw).map _ = _
    rw [h1.1]
    rfl
  · show (((NewPipe (List.replicate 100 0)).afterWrite hw).Read 0 11).map _ = _
    rw [h2b]
    rfl

/-- C8: `Bidir.Close` is a half-close.  Closing endpoint A closes the send
pipe `ab` only, leaving A's receive pipe `ba` entirely unchanged (and
open); the peer B's read — on that same shared pipe `ab` — observes the
closure error, while A's own read direction stays usable (B can still
write and A still reads those bytes); only `SetErrorAndClose` closes both
pipes. -/
theorem c8_half_close (sz : Nat) (msg : List Byte) (now d : Nat) (e : Err)
    (hmsg : 0 < msg.length) (hfit : msg.length ≤ sz) :
    ((NewBidirPair sz).CloseA.1.ba = (NewBidirPair sz).ba ∧
      (NewBidirPair sz).CloseA.1.ab.b.closed = true ∧
      (NewBidirPair sz).CloseA.1.ba.b.closed = false) ∧
    (∃ w2, (NewBidirPair sz).CloseA.1.ReadB now d =
      some (w2, [], some Err.lconPipeClosed)) ∧
    (∃ w3 w4, (NewBidirPair sz).CloseA.1.WriteB now msg = some (w3, msg.length, none) ∧
      w3.ReadA now msg.length = some (w4, msg, none)) ∧
    (((NewBidirPair sz).SetErrorAndCloseA e).ab.b.closed = true ∧
      ((NewBidirPair sz).SetErrorAndCloseA e).ba.b.closed = true) := by
  refine ⟨⟨rfl, rfl, rfl⟩, ?_, ?_, ⟨rfl, rfl⟩⟩
  · obtain ⟨s2, hs2⟩ := Pipe.Read_closed_empty ((NewBidirPair sz).CloseA.1.ab) now d
      rfl rfl (Or.inl rfl)
    refine ⟨{ (NewBidirPair sz).CloseA.1 with ab := s2 }, ?_⟩
    show ((NewBidirPair sz).CloseA.1.ab.Read now d).map _ = _
    rw [hs2]
    rfl
  · have hwb := Pipe.Write_spec (NewPipe (List.replicate sz 0)) now msg (Or.inl rfl) rfl
      (by show 0 + msg.length ≤ (List.replicate sz 0 : List Byte).length
          simp
          omega)
    have hcont : ((NewPipe (List.replicate sz 0)).afterWrite msg).b.contents = msg := by
      rw [hwb.2, NewPipe_b_contents]
      rfl
    have hra := Pipe.Read_exact ((NewPipe (List.replicate sz 0)).afterWrite msg) now msg []
      (Or.inl rfl) (by rw [hcont, List.append_nil]) (Or.inl (List.length_pos.mp hmsg))
    refine ⟨{ (NewBidirPair sz).CloseA.1 with
        ba := (NewPipe (List.replicate sz 0)).afterWrite msg },
      { (NewBidirPair sz).CloseA.1 with
        ba := ((NewPipe (List.replicate sz 0)).afterWrite msg).afterRead msg.length },
      ?_, ?_⟩
    · show ((NewPipe (List.replicate sz 0)).Write now msg).map _ = _
      rw [hwb.1]
      rfl
    · show (((NewPipe (List.replicate sz 0)).afterWrite msg).Read now msg.length).map _ = _
      rw [hra.1]
      rfl

/-- Witness for C8 at capacity 10, message `[5]`, custom error. -/
theorem c8_witness :
    ((0 : Nat) < ([5] : List Byte).length) ∧
    (((NewBidirPair 10).CloseA.1.ba = (NewBidirPair 10).ba ∧
        (NewBidirPair 10).CloseA.1.ab.b.closed = true ∧
        (NewBidirPair 10).CloseA.1.ba.b.closed = false) ∧
      (∃ w2, (NewBidirPair 10).CloseA.1.ReadB 0 1 =
        some (w2, [], some Err.lconPipeClosed)) ∧
      (∃ w3 w4, (NewBidirPair 10).CloseA.1.WriteB 0 [5] =
          some (w3, ([5] : List Byte).length, none) ∧
        w3.ReadA 0 ([5] : List Byte).length = some (w4, [5], none)) ∧
      (((NewBidirPair 10).SetErrorAndCloseA (Err.custom 7)).ab.b.closed = true ∧
        ((NewBidirPair 10).SetErrorAndCloseA (Err.custom 7)).ba.b.closed = true)) :=
  ⟨by decide, c8_half_close 10 [5] 0 1 (Err.custom 7) (by decide) (by decide)⟩

end Lcon
